import Mathlib

/-!
# Verification of the clinical-trials-agent browser client core

Shallow embedding of the algorithmic core of the repository's UI code:

* `src/ui/lib/api.ts` — URL security check, request headers, and the
  SSE frame decoder loop of `streamQuery`;
* `src/ui/hooks/useStreamingQuery.ts` — the `executeQuery` event loop,
  `cancelQuery`, and the abort-controller reference they share;
* `src/ui/hooks/useConversation.ts` — the persisted-history to display-message
  transformation inside `selectConversation`;
* `src/ui/lib/clientId.ts` — `hashString` (djb2), `generateDeviceFingerprint`,
  `getClientId` / `setClientId` / `clearClientId`.

Strings are modelled as `List Char` (JS strings are sequences of UTF-16 code
units; every string handled by this code is made of BMP characters, for which
a Lean `Char` corresponds 1:1 to a code unit).  JS 32-bit integer arithmetic
is modelled on `Nat` with explicit reduction modulo `2 ^ 32`.
-/

/-! ## JS string primitives -/

/-- JS `String.prototype.startsWith`. -/
def jsStartsWith (s pre : List Char) : Bool :=
  pre.isPrefixOf s

/-- JS `String.prototype.includes`: substring containment at any offset. -/
def jsIncludes : List Char → List Char → Bool
  | [], sub => sub.isPrefixOf ([] : List Char)
  | c :: rest, sub => sub.isPrefixOf (c :: rest) || jsIncludes rest sub

/-- Truthiness of a JS `string | null | undefined` value: a string is truthy
iff it is non-empty; `null`/`undefined` are falsy. -/
def truthyL (o : Option (List Char)) : Bool :=
  match o with
  | some s => !s.isEmpty
  | none => false

/-- JS `a || b` on two `string | null` values (result used as `string | null`). -/
def jsOrOptL (a b : Option (List Char)) : Option (List Char) :=
  if truthyL a then a else b

/-- JS `a || d` where `a : string | undefined` and `d` is a string default. -/
def jsOrD (a : Option (List Char)) (d : List Char) : List Char :=
  match a with
  | some s => if s.isEmpty then d else s
  | none => d

/-- Whitespace class used by JS `String.prototype.trim` (ASCII portion; the
code only ever tests whether `content.trim()` is empty). -/
def isWsChar (c : Char) : Bool :=
  c == ' ' || c == '\t' || c == '\n' || c == '\r' || c == '\x0b' || c == '\x0c'

/-- JS `String.prototype.trim`. -/
def jsTrim (s : List Char) : List Char :=
  ((s.dropWhile isWsChar).reverse.dropWhile isWsChar).reverse

/-! ## `src/ui/lib/clientId.ts` — identity derivation

```ts
function hashString(str: string): number {
  let hash = 5381;
  for (let i = 0; i < str.length; i++) {
    hash = (hash * 33) ^ str.charCodeAt(i);
  }
  return hash >>> 0;
}
```
JS `^` operates on the 32-bit patterns of its operands and `>>> 0` reads the
final pattern as an unsigned integer, so the whole loop is faithfully
represented on unsigned 32-bit residues: multiplication by 33 followed by
reduction mod `2 ^ 32` (the signed and unsigned residues agree mod `2 ^ 32`),
then XOR with the (16-bit) character code. -/

/-- One iteration of the `hashString` loop. -/
def hashStep (h : Nat) (c : Char) : Nat :=
  ((h * 33) % 2 ^ 32) ^^^ c.toNat

/-- Function `hashString` from `clientId.ts` (djb2 variant, folded to unsigned 32 bit). -/
def hashString (s : List Char) : Nat :=
  s.foldl hashStep 5381

/-- Fuel-indexed hex-digit expansion: models the digit loop of JS
`Number.prototype.toString(16)` for non-zero arguments.  Fuel 8 is exact for
every value below `16 ^ 8`, i.e. for every unsigned 32-bit value produced by
`hashString`. -/
def toHexAux : Nat → Nat → List Char
  | 0, _ => []
  | fuel + 1, n => if n = 0 then [] else toHexAux fuel (n / 16) ++ [Nat.digitChar (n % 16)]

/-- JS `n.toString(16)` for an unsigned 32-bit `n` (lowercase hex digits). -/
def jsToHex (n : Nat) : List Char :=
  if n = 0 then ['0'] else toHexAux 8 n

/-- JS `n.toString()` (decimal) for an unsigned 32-bit `n`; fuel 10 is exact
for every value below `10 ^ 10 > 2 ^ 32`. -/
def toDecAux : Nat → Nat → List Char
  | 0, _ => []
  | fuel + 1, n => if n = 0 then [] else toDecAux fuel (n / 10) ++ [Nat.digitChar (n % 10)]

/-- Decimal rendering used by the template literal `` `${hash1}${hash2}` ``. -/
def jsNatDec (n : Nat) : List Char :=
  if n = 0 then ['0'] else toDecAux 10 n

/-- JS `String.prototype.padStart(8, "0")`. -/
def padStart8 (s : List Char) : List Char :=
  List.replicate (8 - s.length) '0' ++ s

/-- Rendering `hash.toString(16).padStart(8, "0")` as used for `hex1` … `hex4`. -/
def toHex8 (n : Nat) : List Char :=
  padStart8 (jsToHex n)

/-- JS `String.prototype.slice(a, b)` for `0 ≤ a ≤ b`. -/
def jsSlice (s : List Char) (a b : Nat) : List Char :=
  (s.drop a).take (b - a)

/-- JS `String.prototype.slice(a)` for `0 ≤ a`. -/
def jsSliceFrom (s : List Char) (a : Nat) : List Char :=
  s.drop a

/-- The body of `generateDeviceFingerprint` from `clientId.ts`, starting from
the joined components string (`components.join("|")`); the components
themselves are reads of external device characteristics (§6 of the spec) and
enter only through this string.

```ts
const hash1 = hashString(fingerprint);
const hash2 = hashString(fingerprint.split("").reverse().join(""));
const hex1 = hash1.toString(16).padStart(8, "0");
const hex2 = hash2.toString(16).padStart(8, "0");
const hex3 = hashString(`${hash1}${hash2}`).toString(16).padStart(8, "0");
const hex4 = hashString(`${fingerprint}salt`).toString(16).padStart(8, "0");
return `${hex1}-${hex2.slice(0, 4)}-4${hex2.slice(5, 8)}-${hex3.slice(0, 4)}-${hex3.slice(4)}${hex4.slice(0, 4)}`;
``` -/
def generateDeviceFingerprintFrom (fingerprint : List Char) : List Char :=
  let hash1 := hashString fingerprint
  let hash2 := hashString fingerprint.reverse
  let hex1 := toHex8 hash1
  let hex2 := toHex8 hash2
  let hex3 := toHex8 (hashString (jsNatDec hash1 ++ jsNatDec hash2))
  let hex4 := toHex8 (hashString (fingerprint ++ ['s', 'a', 'l', 't']))
  hex1 ++ '-' :: jsSlice hex2 0 4 ++ '-' :: '4' :: jsSlice hex2 5 8 ++
    '-' :: jsSlice hex3 0 4 ++ '-' :: (jsSliceFrom hex3 4 ++ jsSlice hex4 0 4)

/-- Ambient environment of `clientId.ts`: whether `window` is defined, and the
joined device-characteristics string the fingerprint is derived from (held
fixed while device characteristics are unchanged). -/
structure ClientEnv where
  hasWindow : Bool
  fingerprint : List Char

/-- Function `generateDeviceFingerprint()`: returns `""` outside a browser, otherwise
derives the identifier from the device components string. -/
def generateDeviceFingerprint (env : ClientEnv) : List Char :=
  if env.hasWindow then generateDeviceFingerprintFrom env.fingerprint else []

/-- Function `getClientId()` over an explicit `localStorage` cell (the stored value
under `clinical-trials-client-id`, or `none`).  Returns the produced id and
the updated cell. -/
def getClientId (env : ClientEnv) (store : Option (List Char)) :
    List Char × Option (List Char) :=
  if env.hasWindow then
    if truthyL store then (store.getD [], store)
    else
      let fingerprint := generateDeviceFingerprint env
      (fingerprint, if !fingerprint.isEmpty then some fingerprint else store)
  else ([], store)

/-- Function `setClientId(id)`. -/
def setClientId (env : ClientEnv) (id : List Char) (store : Option (List Char)) :
    Option (List Char) :=
  if env.hasWindow then some id else store

/-- Function `clearClientId()`. -/
def clearClientId (env : ClientEnv) (store : Option (List Char)) :
    Option (List Char) :=
  if env.hasWindow then none else store

/-- Splitter on `'-'`, used to name the hyphen-separated groups of the
UUID-shaped identifier. -/
def splitOnDash : List Char → List (List Char)
  | [] => [[]]
  | c :: rest =>
    if c = '-' then [] :: splitOnDash rest
    else
      match splitOnDash rest with
      | [] => [[c]]
      | p :: ps => (c :: p) :: ps

/-- Lowercase hexadecimal digit test. -/
def isHexDigitChar (c : Char) : Bool :=
  ('0' :: '1' :: '2' :: '3' :: '4' :: '5' :: '6' :: '7' :: '8' :: '9' ::
    'a' :: 'b' :: 'c' :: 'd' :: 'e' :: 'f' :: []).contains c

/-! ## `src/ui/lib/api.ts` — URL check, request headers, frame decoder -/

/-- Function `isSecureUrl` from `api.ts`:
```ts
return url.startsWith("https://") || url.includes("localhost") || url.includes("127.0.0.1");
``` -/
def isSecureUrl (url : List Char) : Bool :=
  jsStartsWith url "https://".data || jsIncludes url "localhost".data ||
    jsIncludes url "127.0.0.1".data

/-- The request headers assembled by `streamQuery` (`api.ts` lines 82–90):
always `Content-Type`, then `X-Client-ID` when the client id is truthy, then
`X-OpenAI-API-Key` when the stored key is truthy and `isSecureUrl` holds of
the target URL. -/
def streamQueryHeaders (clientId : List Char) (openaiApiKey : Option (List Char))
    (streamUrl : List Char) : List (List Char × List Char) :=
  [("Content-Type".data, "application/json".data)] ++
    (if !clientId.isEmpty then [("X-Client-ID".data, clientId)] else []) ++
    (if truthyL openaiApiKey && isSecureUrl streamUrl then
      [("X-OpenAI-API-Key".data, openaiApiKey.getD [])] else [])

/-- Whether a header list carries the caller-supplied credential header. -/
def hasApiKeyHeader (headers : List (List Char × List Char)) : Bool :=
  headers.any fun h => h.1 == "X-OpenAI-API-Key".data

/-- Modelled from the spec's words (§4.3: credential attached only if the
target is "HTTPS or a loopback address"): the host component of a URL,
i.e. what follows the scheme up to the first delimiter. -/
def urlHost (u : List Char) : List Char :=
  let rest :=
    if jsStartsWith u "https://".data then u.drop 8
    else if jsStartsWith u "http://".data then u.drop 7
    else u
  rest.takeWhile fun c => c != '/' && c != ':' && c != '?' && c != '#'

/-- Modelled from the spec's words: a loopback destination is one whose host
is `localhost` or `127.0.0.1`. -/
def isLoopbackUrl (u : List Char) : Bool :=
  urlHost u == "localhost".data || urlHost u == "127.0.0.1".data

/-- Modelled from the spec's words: "confirmed secure (HTTPS or a loopback
address)".  To be compared with the implementation's `isSecureUrl`. -/
def isSecureUrlSpec (u : List Char) : Bool :=
  jsStartsWith u "https://".data || isLoopbackUrl u

/-! ### The frame decoder loop of `streamQuery`

```ts
buffer += decoder.decode(value, { stream: true });
const lines = buffer.split("\n\n");
buffer = lines.pop() || "";
for (const line of lines) {
  if (line.startsWith("data: ")) {
    try { const data = JSON.parse(line.slice(6)) as StreamEvent; yield data; }
    catch { console.warn("Failed to parse SSE event:", line); }
  }
}
```

`JSON.parse` is a platform function (external collaborator); the decoder is
therefore parameterised by a partial parse function `parse` returning `none`
exactly when `JSON.parse` would throw on that payload.  The `for await` loop
that feeds `buffer` is modelled as a fold over the list of decoded text
chunks delivered by the reader; when the reader reports end of data the loop
breaks and the residual buffer is discarded, exactly as in the source.
`executeQuery` invokes `streamQuery(question, conversationId)` without an
abort signal, so `signal` is `undefined` in the modelled call and the
`signal?.aborted` branches never fire. -/

/-- A streaming event as produced by `JSON.parse` of a frame payload; fields
are optional exactly as in the `StreamEvent` TypeScript interface. -/
inductive StreamEvt where
  | stage (stage label : Option (List Char))
  | token (content : Option (List Char))
  | sql (query : Option (List Char))
  | done (conversation_id answer sql_query : Option (List Char))
  | error (message code : Option (List Char))
deriving DecidableEq

/-- Greedy leftmost split on the frame boundary `"\n\n"`, modelling JS
`buffer.split("\n\n")`. -/
def splitDNL : List Char → List (List Char)
  | [] => [[]]
  | [c] => [[c]]
  | c :: d :: rest =>
    if c = '\n' ∧ d = '\n' then [] :: splitDNL rest
    else
      match splitDNL (d :: rest) with
      | [] => [[c]]
      | p :: ps => (c :: p) :: ps

/-- The residual buffer after a split: `lines.pop() || ""`. -/
def lastPart (l : List (List Char)) : List Char :=
  l.getLastD []

/-- One frame: parsed only when it starts with the `"data: "` marker, and the
payload after the marker parses; malformed payloads are logged and skipped. -/
def parseFrame (parse : List Char → Option StreamEvt) (line : List Char) :
    Option StreamEvt :=
  if jsStartsWith line "data: ".data then parse (line.drop 6) else none

/-- The chunk loop of `streamQuery`: carry the residual buffer across chunks,
split each `buffer ++ chunk` at frame boundaries, parse all fully terminated
frames in order, and retain the trailing part as the new buffer.  At end of
data the loop breaks and the residual is dropped. -/
def decodeGo (parse : List Char → Option StreamEvt) (buf : List Char) :
    List (List Char) → List StreamEvt
  | [] => []
  | c :: cs =>
    let parts := splitDNL (buf ++ c)
    parts.dropLast.filterMap (parseFrame parse) ++ decodeGo parse (lastPart parts) cs

/-- The event sequence `streamQuery` yields for a given sequence of decoded
text chunks. -/
def decodeChunks (parse : List Char → Option StreamEvt) (chunks : List (List Char)) :
    List StreamEvt :=
  decodeGo parse [] chunks

/-- A frame stream in which every frame is terminated by the blank-line
boundary. -/
def joinFrames (frames : List (List Char)) : List Char :=
  (frames.map (· ++ ['\n', '\n'])).flatten

/-! ## `src/ui/hooks/useStreamingQuery.ts` — session controller

The hook owns one mutable cell `abortControllerRef` shared by `cancelQuery`
and `executeQuery`:

```ts
const cancelQuery = useCallback(() => {
  if (abortControllerRef.current) {
    abortControllerRef.current.abort();
    abortControllerRef.current = null;
  }
  setIsStreaming(false);
}, []);
```

`executeQuery` first runs `cancelQuery()`, installs a fresh `AbortController`
into the cell, then iterates the events yielded by
`streamQuery(question, conversationId)` — note: no signal argument — checking
`abortControllerRef.current?.signal.aborted` before handling each event.

The model threads the shared cell as an `Option Ctrl`.  Because the aborted
controller is un-referenced by `cancelQuery` (`current = null`) and the
abort signal is never handed to `streamQuery`, setting its flag has no
observable effect beyond the cell update, which the model records exactly.
External interference (a `cancelQuery` call, or a second `executeQuery`
beginning) can happen while the loop is suspended awaiting the next event;
a schedule maps each iteration index to the action that occurred just before
that iteration's abort check. -/

/-- An `AbortController` as far as this hook observes it. -/
structure Ctrl where
  aborted : Bool
deriving DecidableEq

/-- External action interleaved before a loop iteration: nothing, a bare
`cancelQuery()`, or the start of a second `executeQuery` (which runs
`cancelQuery()` and then installs its own fresh controller into the shared
cell). -/
inductive ExtAct where
  | idle
  | cancel
  | startSecond
deriving DecidableEq

/-- Effect of an external action on the shared `abortControllerRef` cell. -/
def applyExt : ExtAct → Option Ctrl → Option Ctrl
  | .idle, r => r
  | .cancel, _ => none
  | .startSecond, _ => some ⟨false⟩

/-- The loop's abort check `abortControllerRef.current?.signal.aborted`
(optional chaining: `undefined` when the cell is `null`, which is falsy). -/
def refAborted : Option Ctrl → Bool
  | some c => c.aborted
  | none => false

/-- The `StreamResult` built on a `done` event. -/
structure StreamResult where
  conversationId : List Char
  answer : List Char
  sqlQuery : Option (List Char)
deriving DecidableEq

/-- An observer callback invocation on the callbacks object supplied to this
`executeQuery` call. -/
inductive Cb where
  | onStage (stage label : List Char)
  | onToken (t : List Char)
  | onSql (q : List Char)
  | onComplete (r : StreamResult)
  | onError (msg : List Char) (code : Option (List Char))
deriving DecidableEq

/-- A trace item: either an external action marker or a callback fired by the
call under observation. -/
inductive Item where
  | ext (a : ExtAct)
  | cb (c : Cb)
deriving DecidableEq

/-- Loop-local state of `executeQuery` (the React state setters it mirrors are
irrelevant to the returned value but `streamedContent` accumulation is kept
for fidelity). -/
structure LoopSt where
  streamed : List Char
  currentSql : Option (List Char)
  currentStage : Option (List Char)
  errorMsg : Option (List Char)
  result : Option StreamResult
deriving DecidableEq

/-- Initial loop state after the `set…` resets at the top of `executeQuery`. -/
def initLoopSt : LoopSt :=
  ⟨[], none, none, none, none⟩

/-- The event dispatch of `executeQuery` (lines 89–109), one event:
each branch guards on the tag and the truthiness of its payload field,
mirrors the React state update, and fires the matching callback. -/
def handleEvent (st : LoopSt) : StreamEvt → LoopSt × List Cb
  | .stage stage label =>
    if truthyL label then
      ({ st with currentStage := label }, [.onStage (jsOrD stage []) (label.getD [])])
    else (st, [])
  | .token content =>
    if truthyL content then
      ({ st with streamed := st.streamed ++ content.getD [] }, [.onToken (content.getD [])])
    else (st, [])
  | .sql query =>
    if truthyL query then
      ({ st with currentSql := query }, [.onSql (query.getD [])])
    else (st, [])
  | .done conversation_id answer sql_query =>
    let r : StreamResult := ⟨jsOrD conversation_id [], jsOrD answer [], sql_query⟩
    ({ st with result := some r }, [.onComplete r])
  | .error message code =>
    let msg := jsOrD message "An error occurred".data
    ({ st with errorMsg := some msg }, [.onError msg code])

/-- The event loop of `executeQuery` under a schedule of external actions:
before handling event `i`, apply the action `sched i` to the shared cell,
then perform the abort check; on abort, break out of the loop. -/
def execLoop (sched : Nat → ExtAct) : Nat → Option Ctrl → LoopSt → List StreamEvt →
    List Item × LoopSt
  | _, _, st, [] => ([], st)
  | i, ref, st, e :: rest =>
    let a := sched i
    let ref' := applyExt a ref
    let pre : List Item := match a with | .idle => [] | a => [.ext a]
    if refAborted ref' then (pre, st)
    else
      let (st', cbs) := handleEvent st e
      let (items, stF) := execLoop sched (i + 1) ref' st' rest
      (pre ++ cbs.map Item.cb ++ items, stF)

/-- A run of `executeQuery` over the decoded event sequence: fresh controller
in the shared cell, reset state, run the loop, and return the trace together
with the value the call returns (`result`, still `null` when no `done` event
was handled). -/
def executeQueryRun (sched : Nat → ExtAct) (events : List StreamEvt) :
    List Item × Option StreamResult :=
  let (items, st) := execLoop sched 0 (some ⟨false⟩) initLoopSt events
  (items, st.result)

/-- The undisturbed run: no cancellation and no competing call. -/
def processEvents (events : List StreamEvt) : List Item × Option StreamResult :=
  executeQueryRun (fun _ => .idle) events

/-! ## `src/ui/hooks/useConversation.ts` — conversation reconciliation -/

/-- Field `args` of a persisted tool call. -/
structure ToolCallArgs where
  query : Option (List Char)
deriving DecidableEq

/-- A persisted tool-call record. -/
structure ToolCall where
  name : Option (List Char)
  args : Option ToolCallArgs
deriving DecidableEq

/-- A persisted message as returned by the conversations API (`ApiMessage`). -/
structure ApiMessage where
  id : List Char
  role : List Char
  content : List Char
  tool_calls : Option (List ToolCall)
deriving DecidableEq

/-- A display message (`Message` in `types/index.ts`). -/
structure Message where
  id : List Char
  role : List Char
  content : List Char
  sqlQuery : Option (List Char)
deriving DecidableEq

/-- Extraction `m.tool_calls?.[0]?.args?.query ?? null` (line 216). -/
def toolCallSql (m : ApiMessage) : Option (List Char) :=
  ((m.tool_calls.bind fun tcs => tcs.head?).bind fun tc => tc.args).bind fun a => a.query

/-- The reconstruction loop of `selectConversation` (lines 210–229), with the
`pendingSqlQuery` slot threaded explicitly:

```ts
for (const m of detail.messages) {
  if (m.role !== "user" && m.role !== "assistant") continue;
  const sqlQuery = m.tool_calls?.[0]?.args?.query ?? null;
  if (sqlQuery) pendingSqlQuery = sqlQuery;
  if (!m.content.trim()) continue;
  transformedMessages.push({ id: m.id, role: m.role, content: m.content,
    sqlQuery: m.role === "assistant" ? sqlQuery || pendingSqlQuery : null });
  if (m.role === "assistant") pendingSqlQuery = null;
}
``` -/
def transformMessages : List ApiMessage → Option (List Char) → List Message
  | [], _ => []
  | m :: rest, pending =>
    if m.role ≠ "user".data ∧ m.role ≠ "assistant".data then
      transformMessages rest pending
    else
      let sqlQuery := toolCallSql m
      let pending' := if truthyL sqlQuery then sqlQuery else pending
      if (jsTrim m.content).isEmpty then transformMessages rest pending'
      else
        ⟨m.id, m.role, m.content,
          if m.role = "assistant".data then jsOrOptL sqlQuery pending' else none⟩ ::
          transformMessages rest (if m.role = "assistant".data then none else pending')

/-- Reconstruction of the display list from a persisted history. -/
def reconstruct (msgs : List ApiMessage) : List Message :=
  transformMessages msgs none

/-- A persisted record with all but the first entry of its `tool_calls` list
removed (used to state that the reconciler reads only the first entry). -/
def truncateToolCalls (m : ApiMessage) : ApiMessage :=
  { m with tool_calls := m.tool_calls.map fun tcs => tcs.take 1 }

/-! ## Auxiliary lemmas -/

theorem splitDNL_ne_nil : ∀ s, splitDNL s ≠ []
  | [] => by simp [splitDNL]
  | [c] => by simp [splitDNL]
  | c :: d :: rest => by
    unfold splitDNL
    split
    · simp
    · cases h : splitDNL (d :: rest) <;> simp

theorem lastPart_cons_cons (a b : List Char) (l : List (List Char)) :
    lastPart (a :: b :: l) = lastPart (b :: l) := rfl

theorem splitDNL_cons_of_ne (c : Char) (u : List Char)
    (h : ¬(c = '\n' ∧ u.head? = some '\n')) :
    splitDNL (c :: u) = (c :: (splitDNL u).headD []) :: (splitDNL u).tail := by
  cases u with
  | nil => simp [splitDNL]
  | cons d u' =>
    have hcd : ¬(c = '\n' ∧ d = '\n') := by
      intro ⟨h1, h2⟩; exact h ⟨h1, by simp [h2]⟩
    rw [show splitDNL (c :: d :: u') =
      (if c = '\n' ∧ d = '\n' then [] :: splitDNL u'
       else match splitDNL (d :: u') with
         | [] => [[c]]
         | p :: ps => (c :: p) :: ps) from rfl, if_neg hcd]
    cases hs : splitDNL (d :: u') with
    | nil => exact absurd hs (splitDNL_ne_nil _)
    | cons p ps => simp

theorem splitDNL_singleton {d : Char} {rest p : List Char}
    (h : splitDNL (d :: rest) = [p]) : ∃ q, p = d :: q := by
  cases rest with
  | nil => simp [splitDNL] at h; exact ⟨[], h.symm⟩
  | cons e rest' =>
    rw [show splitDNL (d :: e :: rest') =
      (if d = '\n' ∧ e = '\n' then [] :: splitDNL rest'
       else match splitDNL (e :: rest') with
         | [] => [[d]]
         | p :: ps => (d :: p) :: ps) from rfl] at h
    split at h
    · obtain ⟨rfl, h2⟩ := List.cons.inj h
      exact absurd h2 (splitDNL_ne_nil _)
    · rename_i hne
      cases hs : splitDNL (e :: rest') with
      | nil => exact absurd hs (splitDNL_ne_nil _)
      | cons q qs =>
        rw [hs] at h
        obtain ⟨h1, _⟩ := List.cons.inj h
        exact ⟨q, h1.symm⟩

theorem splitDNL_nn (rest : List Char) :
    splitDNL ('\n' :: '\n' :: rest) = [] :: splitDNL rest := by
  rw [show splitDNL ('\n' :: '\n' :: rest) =
    (if ('\n' : Char) = '\n' ∧ ('\n' : Char) = '\n' then [] :: splitDNL rest
     else match splitDNL ('\n' :: rest) with
       | [] => [['\n']]
       | p :: ps => ('\n' :: p) :: ps) from rfl, if_pos ⟨rfl, rfl⟩]

theorem splitDNL_append : ∀ (s t : List Char),
    splitDNL (s ++ t) = (splitDNL s).dropLast ++ splitDNL (lastPart (splitDNL s) ++ t)
  | [], t => by simp [splitDNL, lastPart, List.getLastD]
  | [c], t => by simp [splitDNL, lastPart, List.getLastD]
  | c :: d :: rest, t => by
    by_cases hnn : c = '\n' ∧ d = '\n'
    · obtain ⟨rfl, rfl⟩ := hnn
      have IH := splitDNL_append rest t
      rw [List.cons_append, List.cons_append, splitDNL_nn, splitDNL_nn, IH]
      obtain ⟨S0, S', hS⟩ := List.exists_cons_of_ne_nil (splitDNL_ne_nil rest)
      rw [hS]
      rw [List.dropLast_cons₂, lastPart_cons_cons]
      simp
    · have hhd : (d :: (rest ++ t)).head? = some d := rfl
      have hcond : ¬(c = '\n' ∧ (d :: (rest ++ t)).head? = some '\n') := by
        intro ⟨h1, h2⟩
        rw [hhd] at h2
        exact hnn ⟨h1, Option.some.inj h2⟩
      have hcondR : ¬(c = '\n' ∧ (d :: rest).head? = some '\n') := by
        intro ⟨h1, h2⟩
        exact hnn ⟨h1, Option.some.inj h2⟩
      have hL := splitDNL_cons_of_ne c (d :: (rest ++ t)) hcond
      have hR := splitDNL_cons_of_ne c (d :: rest) hcondR
      have IH := splitDNL_append (d :: rest) t
      rw [List.cons_append, List.cons_append] at *
      cases hS : splitDNL (d :: rest) with
      | nil => exact absurd hS (splitDNL_ne_nil _)
      | cons p ps =>
        cases ps with
        | nil =>
          obtain ⟨q, hq⟩ := splitDNL_singleton hS
          rw [hS] at IH hR
          simp only [List.headD_cons, List.tail_cons] at hR
          have hlast : lastPart [p] = p := rfl
          simp only [List.dropLast_single, List.nil_append, hlast] at IH
          have hcond2 : ¬(c = '\n' ∧ (p ++ t).head? = some '\n') := by
            intro ⟨h1, h2⟩
            rw [hq] at h2
            simp only [List.cons_append, List.head?_cons] at h2
            exact hnn ⟨h1, Option.some.inj h2⟩
          have hfin := splitDNL_cons_of_ne c (p ++ t) hcond2
          rw [hL, IH, hR]
          simp only [List.dropLast_single, List.nil_append]
          have hlast2 : lastPart [c :: p] = c :: p := rfl
          rw [hlast2, List.cons_append, hfin]
        | cons s0 ps' =>
          rw [hS] at IH hR
          simp only [List.headD_cons, List.tail_cons] at hR
          rw [List.dropLast_cons₂, lastPart_cons_cons] at IH
          rw [hL, IH, hR]
          simp only [List.cons_append, List.headD_cons, List.tail_cons, lastPart_cons_cons,
            List.dropLast_cons₂]

theorem lastPart_append_of_ne_nil (A B : List (List Char)) (h : B ≠ []) :
    lastPart (A ++ B) = lastPart B := by
  induction A with
  | nil => rfl
  | cons a A ih =>
    obtain ⟨b, B', rfl⟩ := List.exists_cons_of_ne_nil h
    cases A with
    | nil => rfl
    | cons a' A' =>
      simp only [List.cons_append] at ih ⊢
      rw [lastPart_cons_cons]
      exact ih

theorem dropLast_append_of_ne_nil (A B : List (List Char)) (h : B ≠ []) :
    (A ++ B).dropLast = A ++ B.dropLast := by
  induction A with
  | nil => rfl
  | cons a A ih =>
    obtain ⟨b, B', rfl⟩ := List.exists_cons_of_ne_nil h
    cases A with
    | nil => rfl
    | cons a' A' =>
      simp only [List.cons_append] at ih ⊢
      rw [List.dropLast_cons₂, ih]

theorem decodeGo_merge (parse : List Char → Option StreamEvt) (b c1 c2 : List Char)
    (cs : List (List Char)) :
    decodeGo parse b (c1 :: c2 :: cs) = decodeGo parse b ((c1 ++ c2) :: cs) := by
  simp only [decodeGo]
  rw [show b ++ (c1 ++ c2) = (b ++ c1) ++ c2 from (List.append_assoc b c1 c2).symm,
    splitDNL_append (b ++ c1) c2]
  have hne : splitDNL (lastPart (splitDNL (b ++ c1)) ++ c2) ≠ [] := splitDNL_ne_nil _
  rw [dropLast_append_of_ne_nil _ _ hne, lastPart_append_of_ne_nil _ _ hne,
    List.filterMap_append, List.append_assoc]

theorem decodeGo_flatten (parse : List Char → Option StreamEvt) :
    ∀ (cs : List (List Char)) (b : List Char), cs ≠ [] →
      decodeGo parse b cs = decodeGo parse b [cs.flatten]
  | [], _, h => absurd rfl h
  | [c], b, _ => by simp [List.flatten]
  | c1 :: c2 :: cs, b, _ => by
    rw [decodeGo_merge, decodeGo_flatten parse ((c1 ++ c2) :: cs) b (by simp)]
    simp [List.flatten, List.append_assoc]
termination_by cs => cs.length
decreasing_by simp

theorem splitDNL_frame (f t : List Char) (hf : ∀ c ∈ f, c ≠ '\n') :
    splitDNL (f ++ '\n' :: '\n' :: t) = f :: splitDNL t := by
  induction f with
  | nil => simpa using splitDNL_nn t
  | cons c f ih =>
    have hc : c ≠ '\n' := hf c (by simp)
    have hrec := ih fun x hx => hf x (by simp [hx])
    rw [List.cons_append, splitDNL_cons_of_ne c _ (fun h => hc h.1), hrec]
    simp

theorem splitDNL_joinFrames : ∀ (fs : List (List Char)),
    (∀ f ∈ fs, ∀ c ∈ f, c ≠ '\n') → splitDNL (joinFrames fs) = fs ++ [[]]
  | [], _ => by simp [joinFrames, splitDNL]
  | f :: fs, h => by
    have hj : joinFrames (f :: fs) = f ++ '\n' :: '\n' :: joinFrames fs := by
      simp [joinFrames]
    rw [hj, splitDNL_frame f _ (h f (by simp)),
      splitDNL_joinFrames fs (fun g hg => h g (by simp [hg]))]
    simp

theorem hashStep_lt (h : Nat) (c : Char) : hashStep h c < 2 ^ 32 := by
  have h1 : (h * 33) % 2 ^ 32 < 2 ^ 32 := Nat.mod_lt _ (by norm_num)
  have h2 : c.toNat < 2 ^ 32 := c.val.toNat_lt
  exact Nat.bitwise_lt h1 h2

theorem foldl_hashStep_lt : ∀ (s : List Char) (h : Nat), h < 2 ^ 32 →
    s.foldl hashStep h < 2 ^ 32
  | [], _, hh => hh
  | c :: s, h, _ => foldl_hashStep_lt s (hashStep h c) (hashStep_lt h c)

theorem hashString_lt (s : List Char) : hashString s < 2 ^ 32 :=
  foldl_hashStep_lt s 5381 (by norm_num)

theorem toHexAux_len : ∀ (fuel n : Nat), (toHexAux fuel n).length ≤ fuel
  | 0, _ => by simp [toHexAux]
  | fuel + 1, n => by
    unfold toHexAux
    split
    · simp
    · simpa using Nat.succ_le_succ (toHexAux_len fuel (n / 16))

theorem jsToHex_len (n : Nat) : (jsToHex n).length ≤ 8 := by
  unfold jsToHex
  split
  · simp
  · exact toHexAux_len 8 n

theorem padStart8_len (s : List Char) (h : s.length ≤ 8) : (padStart8 s).length = 8 := by
  simp [padStart8]
  omega

theorem toHex8_len (n : Nat) : (toHex8 n).length = 8 :=
  padStart8_len _ (jsToHex_len n)

theorem digitChar_hex : ∀ d < 16, isHexDigitChar (Nat.digitChar d) = true := by decide

theorem toHexAux_hex : ∀ (fuel n : Nat), ∀ c ∈ toHexAux fuel n, isHexDigitChar c = true
  | 0, _ => by simp [toHexAux]
  | fuel + 1, n => by
    unfold toHexAux
    split
    · simp
    · intro c hc
      rcases List.mem_append.mp hc with h | h
      · exact toHexAux_hex fuel (n / 16) c h
      · simp only [List.mem_singleton] at h
        subst h
        exact digitChar_hex _ (Nat.mod_lt _ (by norm_num))

theorem toHex8_hex (n : Nat) : ∀ c ∈ toHex8 n, isHexDigitChar c = true := by
  intro c hc
  rcases List.mem_append.mp hc with h | h
  · rw [List.eq_of_mem_replicate h]; decide
  · unfold jsToHex at h
    split at h
    · simp only [List.mem_singleton] at h; subst h; decide
    · exact toHexAux_hex 8 n c h

theorem hex_ne_dash {c : Char} (h : isHexDigitChar c = true) : c ≠ '-' := by
  intro hc
  subst hc
  simp [isHexDigitChar] at h

theorem splitOnDash_cons_ne (c : Char) (u : List Char) (hc : c ≠ '-') :
    splitOnDash (c :: u) =
      match splitOnDash u with
      | [] => [[c]]
      | p :: ps => (c :: p) :: ps := by
  rw [show splitOnDash (c :: u) =
    (if c = '-' then [] :: splitOnDash u
     else match splitOnDash u with
       | [] => [[c]]
       | p :: ps => (c :: p) :: ps) from rfl, if_neg hc]

theorem splitOnDash_append (g t : List Char) (hg : ∀ c ∈ g, c ≠ '-') :
    splitOnDash (g ++ '-' :: t) = g :: splitOnDash t := by
  induction g with
  | nil => simp [splitOnDash]
  | cons c g ih =>
    have hc : c ≠ '-' := hg c (by simp)
    have := ih fun x hx => hg x (by simp [hx])
    rw [List.cons_append, splitOnDash_cons_ne c _ hc, this]

theorem splitOnDash_noDash (g : List Char) (hg : ∀ c ∈ g, c ≠ '-') :
    splitOnDash g = [g] := by
  induction g with
  | nil => simp [splitOnDash]
  | cons c g ih =>
    have hc : c ≠ '-' := hg c (by simp)
    have := ih fun x hx => hg x (by simp [hx])
    rw [splitOnDash_cons_ne c _ hc, this]

theorem splitOnDash_five (g1 g2 g3 g4 g5 : List Char)
    (h1 : ∀ c ∈ g1, c ≠ '-') (h2 : ∀ c ∈ g2, c ≠ '-') (h3 : ∀ c ∈ g3, c ≠ '-')
    (h4 : ∀ c ∈ g4, c ≠ '-') (h5 : ∀ c ∈ g5, c ≠ '-') :
    splitOnDash (g1 ++ '-' :: (g2 ++ '-' :: (g3 ++ '-' :: (g4 ++ '-' :: g5)))) =
      [g1, g2, g3, g4, g5] := by
  rw [splitOnDash_append _ _ h1, splitOnDash_append _ _ h2, splitOnDash_append _ _ h3,
    splitOnDash_append _ _ h4, splitOnDash_noDash _ h5]

theorem toolCallSql_trunc (m : ApiMessage) : toolCallSql (truncateToolCalls m) = toolCallSql m := by
  unfold toolCallSql truncateToolCalls
  cases m.tool_calls with
  | none => rfl
  | some tcs => cases tcs <;> rfl

theorem transform_trunc : ∀ (msgs : List ApiMessage) (pending : Option (List Char)),
    transformMessages (msgs.map truncateToolCalls) pending = transformMessages msgs pending
  | [], _ => rfl
  | m :: rest, pending => by
    have hid : (truncateToolCalls m).id = m.id := rfl
    have hrole : (truncateToolCalls m).role = m.role := rfl
    have hcontent : (truncateToolCalls m).content = m.content := rfl
    simp only [List.map_cons, transformMessages, hid, hrole, hcontent, toolCallSql_trunc,
      transform_trunc rest]

theorem execLoop_idle_done (cid ans sq : Option (List Char)) :
    ∀ (es : List StreamEvt) (i : Nat) (st : LoopSt),
      ((execLoop (fun _ => .idle) i (some ⟨false⟩) st (es ++ [.done cid ans sq])).2).result =
        some ⟨jsOrD cid [], jsOrD ans [], sq⟩
  | [], i, st => by
    simp [execLoop, applyExt, refAborted, handleEvent]
  | e :: es, i, st => by
    rw [List.cons_append]
    simp only [execLoop, applyExt, refAborted, Bool.false_eq_true, reduceIte]
    rcases h : handleEvent st e with ⟨st2, cbs⟩
    simp only [h]
    exact execLoop_idle_done cid ans sq es (i + 1) st2

/-! ## Claim theorems -/

/-- Claim C1, counterexample: the claim says the credential header is absent
from every request whose URL is neither HTTPS nor a loopback address.  The
URL `http://evil.example/localhost` is plain HTTP and its host is
`evil.example`, yet `isSecureUrl` accepts it (substring check
`url.includes("localhost")`), so `streamQuery` attaches the
`X-OpenAI-API-Key` header. -/
theorem C1_counterexample :
    hasApiKeyHeader (streamQueryHeaders "cid".data (some "sk-key".data)
      "http://evil.example/localhost".data) = true ∧
    isSecureUrlSpec "http://evil.example/localhost".data = false := by
  decide

/-- Claim C1, amended: for every request URL, the caller-supplied credential
header `X-OpenAI-API-Key` is attached iff a credential is present (truthy)
and `isSecureUrl` holds of the URL, i.e. the URL starts with `https://` or
contains `localhost` or `127.0.0.1` as a substring anywhere. -/
theorem C1_header_iff_isSecureUrl (clientId : List Char) (key : Option (List Char))
    (url : List Char) :
    hasApiKeyHeader (streamQueryHeaders clientId key url) =
      (truthyL key && isSecureUrl url) := by
  unfold hasApiKeyHeader streamQueryHeaders
  cases h : truthyL key && isSecureUrl url <;>
    by_cases hc : clientId.isEmpty <;>
      simp +decide [h, hc, List.any_append]

/-- Claim C2, counterexample: after token events totaling `"Hello world"`, a
`done` event with empty `answer` makes `executeQuery` return a result whose
`answer` is `""`, not `"Hello world"` — the `done` branch computes
`event.answer || ""` and never falls back to the accumulated text. -/
theorem C2_counterexample :
    (processEvents [.token (some "Hello ".data), .token (some "world".data),
      .done (some "c1".data) (some "".data) none]).2 =
      some ⟨"c1".data, "".data, none⟩ ∧
    some (⟨"c1".data, "".data, none⟩ : StreamResult) ≠
      some ⟨"c1".data, "Hello world".data, none⟩ := by
  decide

/-- Claim C2, amended: for every event stream whose terminal event is `done`,
`executeQuery` returns a result whose `answer` equals the `done` event's own
answer field (the empty string when that field is absent or empty),
regardless of any previously accumulated token fragments. -/
theorem C2_result_answer_from_done (es : List StreamEvt) (cid ans sq : Option (List Char)) :
    (processEvents (es ++ [.done cid ans sq])).2 =
      some ⟨jsOrD cid [], jsOrD ans [], sq⟩ := by
  have h := execLoop_idle_done cid ans sq es 0 initLoopSt
  unfold processEvents executeQueryRun
  rcases hx : execLoop (fun _ => .idle) 0 (some ⟨false⟩) initLoopSt
    (es ++ [.done cid ans sq]) with ⟨items, st⟩
  rw [hx] at h
  rw [hx]
  simpa using h

/-- Claim C3 is violated by the code (evaluation at the failing input): the
first `executeQuery` streams a token and then a `done` event; a second
`executeQuery` starts between them (`.ext .startSecond` marks the point where
the second call ran `cancelQuery()` and installed its own controller).  The
first call's loop check `abortControllerRef.current?.signal.aborted` now reads
the second call's (non-aborted) controller, and the first stream was opened
without an abort signal, so the first call keeps running: its `onComplete`
fires after the second call started, and the call returns its result. -/
theorem C3_first_call_completes_after_second_start :
    executeQueryRun (fun i => if i = 1 then .startSecond else .idle)
      [.token (some "Hi".data), .done (some "c1".data) (some "ans".data) none] =
    ([.cb (.onToken "Hi".data), .ext .startSecond,
      .cb (.onComplete ⟨"c1".data, "ans".data, none⟩)],
     some ⟨"c1".data, "ans".data, none⟩) := by
  decide

/-- Claim C4 is violated by the code (evaluation at the failing input):
`cancelQuery()` fires mid-stream (`.ext .cancel`, which aborts the current
controller and then nulls the shared ref).  On the next iterations the loop
check reads `abortControllerRef.current?.signal.aborted` through the nulled
ref (`undefined`, falsy), so the loop does NOT exit: the remaining token and
`done` callbacks still fire and the call returns a non-null result — and
since `executeQuery` never passed the signal to `streamQuery`, the reader
release path there is unreachable. -/
theorem C4_cancel_does_not_stop_loop :
    executeQueryRun (fun i => if i = 1 then .cancel else .idle)
      [.token (some "Hel".data), .token (some "lo".data),
       .done (some "c1".data) (some "Hi".data) none] =
    ([.cb (.onToken "Hel".data), .ext .cancel, .cb (.onToken "lo".data),
      .cb (.onComplete ⟨"c1".data, "Hi".data, none⟩)],
     some ⟨"c1".data, "Hi".data, none⟩) := by
  decide

/-- Claim C5: chunk-boundary independence of the frame decoder.  For every
parse function and every partition of the stream text into chunks, the
decoder yields exactly the same event sequence, in the same order, as when
the whole text arrives as a single chunk: only frames terminated by a
blank-line boundary are parsed per iteration and the trailing partial frame
is carried into the next chunk. -/
theorem C5_chunk_boundary_independence (parse : List Char → Option StreamEvt)
    (chunks : List (List Char)) :
    decodeChunks parse chunks = decodeChunks parse [chunks.flatten] := by
  cases chunks with
  | nil => simp [decodeChunks, decodeGo, splitDNL, lastPart]
  | cons c cs => exact decodeGo_flatten parse (c :: cs) [] (by simp)

/-- Claim C6: a frame whose payload fails to parse is skipped without
terminating the stream and without surfacing an error; every frame before
and after it is still delivered, in order.  For any sequence of
newline-free frames, each terminated by the blank-line boundary, the decoder
delivers exactly the parseable frames in their original order (the decode is
total — parse failures are absorbed, never raised). -/
theorem C6_malformed_frames_skipped (parse : List Char → Option StreamEvt)
    (fs : List (List Char)) (h : ∀ f ∈ fs, ∀ c ∈ f, c ≠ '\n') :
    decodeChunks parse [joinFrames fs] = fs.filterMap (parseFrame parse) := by
  simp only [decodeChunks, decodeGo, List.nil_append]
  rw [splitDNL_joinFrames fs h, List.dropLast_concat]
  simp

/-- Witness for C6: three frames, the middle one with an unparseable payload,
decode to exactly the first and third frames' events, in order. -/
theorem C6_witness :
    decodeChunks
      (fun l => if l = "ok1".data then some (.token (some "a".data))
        else if l = "ok2".data then some (.token (some "b".data)) else none)
      [joinFrames ["data: ok1".data, "data: bad".data, "data: ok2".data]] =
    [.token (some "a".data), .token (some "b".data)] :=
  (C6_malformed_frames_skipped
    (fun l => if l = "ok1".data then some (.token (some "a".data))
      else if l = "ok2".data then some (.token (some "b".data)) else none)
    ["data: ok1".data, "data: bad".data, "data: ok2".data] (by decide)).trans (by decide)

/-- Claim C7: reconstructing the persisted history
`[user "Q1", assistant "" with tool_call query "SELECT 1", assistant "Answer"]`
yields exactly two display messages — the user turn with no artifact, and the
assistant turn `"Answer"` carrying `"SELECT 1"`: the empty-content assistant
record emits nothing but its artifact is carried forward. -/
theorem C7_reconstruct_example :
    reconstruct
      [⟨"m1".data, "user".data, "Q1".data, none⟩,
       ⟨"m2".data, "assistant".data, "".data,
         some [⟨some "sql_query".data, some ⟨some "SELECT 1".data⟩⟩]⟩,
       ⟨"m3".data, "assistant".data, "Answer".data, none⟩] =
    [⟨"m1".data, "user".data, "Q1".data, none⟩,
     ⟨"m3".data, "assistant".data, "Answer".data, some "SELECT 1".data⟩] := by
  decide

/-- Claim C8, counterexample: at the fingerprint input `""` the derived
identifier's hyphen-separated groups have lengths 8, 4, 4, 4 and 8 — not the
8-4-4-4-12 grouping of a UUID: the template's last group is
`hex3.slice(4)` (4 hex digits) followed by `hex4.slice(0, 4)` (4 more). -/
theorem C8_counterexample :
    (splitOnDash (generateDeviceFingerprintFrom [])).map List.length = [8, 4, 4, 4, 8] ∧
    ([8, 4, 4, 4, 8] : List Nat) ≠ [8, 4, 4, 4, 12] := by
  decide

/-- Claim C8, amended: for every fingerprint input, the identity derivation
assembles five hyphen-separated groups of lowercase hex digits of lengths
8, 4, 4, 4 and 8 (not 12), and the third group begins with the version
nibble `4`. -/
theorem C8_uuid_grouping (fp : List Char) :
    (splitOnDash (generateDeviceFingerprintFrom fp)).map List.length = [8, 4, 4, 4, 8] ∧
    ((splitOnDash (generateDeviceFingerprintFrom fp)).getD 2 []).head? = some '4' ∧
    ∀ g ∈ splitOnDash (generateDeviceFingerprintFrom fp), ∀ c ∈ g,
      isHexDigitChar c = true := by
  have hhex2 := toHex8_hex (hashString fp.reverse)
  have hhex3 := toHex8_hex (hashString (jsNatDec (hashString fp) ++
    jsNatDec (hashString fp.reverse)))
  have hhex4 := toHex8_hex (hashString (fp ++ ['s', 'a', 'l', 't']))
  have hg1 : ∀ c ∈ toHex8 (hashString fp), isHexDigitChar c = true := toHex8_hex _
  have hg2 : ∀ c ∈ jsSlice (toHex8 (hashString fp.reverse)) 0 4, isHexDigitChar c = true :=
    fun c hc => hhex2 c (List.drop_subset _ _ (List.take_subset _ _ hc))
  have hg3 : ∀ c ∈ '4' :: jsSlice (toHex8 (hashString fp.reverse)) 5 8,
      isHexDigitChar c = true := by
    intro c hc
    rcases List.mem_cons.mp hc with rfl | hc
    · decide
    · exact hhex2 c (List.drop_subset _ _ (List.take_subset _ _ hc))
  have hg4 : ∀ c ∈ jsSlice (toHex8 (hashString (jsNatDec (hashString fp) ++
      jsNatDec (hashString fp.reverse)))) 0 4, isHexDigitChar c = true :=
    fun c hc => hhex3 c (List.drop_subset _ _ (List.take_subset _ _ hc))
  have hg5 : ∀ c ∈ jsSliceFrom (toHex8 (hashString (jsNatDec (hashString fp) ++
      jsNatDec (hashString fp.reverse)))) 4 ++
      jsSlice (toHex8 (hashString (fp ++ ['s', 'a', 'l', 't']))) 0 4,
      isHexDigitChar c = true := by
    intro c hc
    rcases List.mem_append.mp hc with hc | hc
    · exact hhex3 c (List.drop_subset _ _ hc)
    · exact hhex4 c (List.drop_subset _ _ (List.take_subset _ _ hc))
  have hout : generateDeviceFingerprintFrom fp =
      toHex8 (hashString fp) ++ '-' ::
        (jsSlice (toHex8 (hashString fp.reverse)) 0 4 ++ '-' ::
          (('4' :: jsSlice (toHex8 (hashString fp.reverse)) 5 8) ++ '-' ::
            (jsSlice (toHex8 (hashString (jsNatDec (hashString fp) ++
                jsNatDec (hashString fp.reverse)))) 0 4 ++ '-' ::
              (jsSliceFrom (toHex8 (hashString (jsNatDec (hashString fp) ++
                  jsNatDec (hashString fp.reverse)))) 4 ++
                jsSlice (toHex8 (hashString (fp ++ ['s', 'a', 'l', 't']))) 0 4)))) := by
    simp only [generateDeviceFingerprintFrom]
    simp [List.append_assoc]
  rw [hout, splitOnDash_five _ _ _ _ _
    (fun c hc => hex_ne_dash (hg1 c hc)) (fun c hc => hex_ne_dash (hg2 c hc))
    (fun c hc => hex_ne_dash (hg3 c hc)) (fun c hc => hex_ne_dash (hg4 c hc))
    (fun c hc => hex_ne_dash (hg5 c hc))]
  refine ⟨?_, ?_, ?_⟩
  · simp [jsSlice, jsSliceFrom, List.length_take, List.length_drop, toHex8_len]
  · rfl
  · intro g hg c hc
    rcases List.mem_cons.mp hg with rfl | hg
    · exact hg1 c hc
    rcases List.mem_cons.mp hg with rfl | hg
    · exact hg2 c hc
    rcases List.mem_cons.mp hg with rfl | hg
    · exact hg3 c hc
    rcases List.mem_cons.mp hg with rfl | hg
    · exact hg4 c hc
    rcases List.mem_cons.mp hg with rfl | hg
    · exact hg5 c hc
    · simp at hg

/-- Claim C9: with device characteristics held fixed, the identity is stable.
Two consecutive `getClientId()` calls with no intervening clear or set agree,
and the value obtained after a `clearClientId()` equals the value obtained
after any later `clearClientId()` — the fingerprint derivation is
deterministic in the device environment. -/
theorem C9_identity_stability (env : ClientEnv) (store : Option (List Char)) :
    (getClientId env (getClientId env store).2).1 = (getClientId env store).1 ∧
    (getClientId env (clearClientId env
        (getClientId env (clearClientId env store)).2)).1 =
      (getClientId env (clearClientId env store)).1 := by
  refine ⟨?_, ?_⟩
  · cases env with
    | mk hw fp =>
      cases hw
      · simp [getClientId]
      · cases store with
        | none =>
          by_cases he : (generateDeviceFingerprintFrom fp).isEmpty <;>
            simp [getClientId, generateDeviceFingerprint, truthyL, he]
        | some s =>
          by_cases hs : s.isEmpty
          · by_cases he : (generateDeviceFingerprintFrom fp).isEmpty <;>
              simp [getClientId, generateDeviceFingerprint, truthyL, hs, he]
          · simp [getClientId, truthyL, hs]
  · cases env with
    | mk hw fp =>
      cases hw
      · simp [getClientId, clearClientId]
      · by_cases he : (generateDeviceFingerprintFrom fp).isEmpty <;>
          simp [getClientId, clearClientId, generateDeviceFingerprint, truthyL, he]

/-- Claim C10: when capturing a pending artifact the reconciler inspects only
the first entry of a record's `tool_calls` list — reconstruction is unchanged
when every record keeps only its first tool call — and in particular a record
whose first entry has no query contributes nothing even when a later entry
does. -/
theorem C10_first_tool_call_only :
    (∀ (msgs : List ApiMessage),
      reconstruct msgs = reconstruct (msgs.map truncateToolCalls)) ∧
    toolCallSql ⟨"m".data, "assistant".data, "x".data,
      some [⟨some "a".data, some ⟨none⟩⟩,
            ⟨some "b".data, some ⟨some "SELECT 2".data⟩⟩]⟩ = none :=
  ⟨fun msgs => (transform_trunc msgs none).symm, by decide⟩
